import Mathlib

/-!
Shallow embedding of `rust-todo-tui` (src/main.rs) for verification.

Conventions of the embedding:
* Rust `String`/`&str` values that flow through the file format are modelled
  as lists of bytes (`List Nat`, each entry `< 256` for real UTF-8 data);
  byte-index slicing such as `&s[6..]` is modelled at the byte level,
  including its panic conditions (index past the end, or not on a UTF-8
  character boundary).
* Fallible Rust functions return `Option`/an explicit result type; a Rust
  panic is modelled as the `panic` constructor of `DecodeResult`, and at the
  `read_items` level as the result `none`.
* The file system is modelled as an association list from path strings to
  raw byte contents; `fs::write` truncates/creates, and
  `OpenOptions::create(true)` creates an empty file when absent.
-/

/-- Embedding of `struct Item` from src/main.rs: a todo entry with its text
(UTF-8 bytes) and completion flag. -/
structure Item where
  text : List Nat
  completed : Bool
deriving DecidableEq

/-- Bytes of the incomplete marker `"- [ ]"`. -/
def marker_open : List Nat := [45, 32, 91, 32, 93]

/-- Bytes of the completed marker `"- [x]"`. -/
def marker_done : List Nat := [45, 32, 91, 120, 93]

/-- Embedding of `impl ToString for Item`: `"- [x] "` or `"- [ ] "` followed
by the text. -/
def Item.to_string (it : Item) : List Nat :=
  (if it.completed then marker_done else marker_open) ++ 32 :: it.text

/-- Embedding of `Item::new`: a fresh incomplete item with the given text. -/
def Item.new (text : List Nat) : Item :=
  { text := text, completed := false }

/-- Embedding of `Item::toggle`: flip the completion flag. -/
def Item.toggle (it : Item) : Item :=
  { it with completed := !it.completed }

/-- Outcome of `Item::from_str`: success, a parse error (`bail!`), or a Rust
panic (out-of-bounds / non-boundary byte slice). -/
inductive DecodeResult where
  | ok (it : Item)
  | err
  | panic
deriving DecidableEq

/-- True for UTF-8 continuation bytes (`0b10xxxxxx`), which may not start a
character. -/
def contByte (b : Nat) : Bool :=
  decide (128 ≤ b) && decide (b < 192)

/-- Embedding of `str::is_char_boundary` at index `i` of byte list `s`:
either the end of the string, or a byte that does not continue a previous
character. Slicing `&s[i..]` panics exactly when this is false. -/
def is_char_boundary (s : List Nat) (i : Nat) : Bool :=
  decide (i = s.length) || (decide (i < s.length) && !contByte (s.getD i 0))

/-- Embedding of `impl FromStr for Item` (src/main.rs lines 36-59): bail
unless the line starts with one of the two 5-byte markers; then take
`&s[6..]` as the text, which panics when byte offset 6 is not a valid
boundary of the line (in particular on a bare 5-byte marker line); the byte
at offset 5 is skipped without being inspected. -/
def Item.from_str (s : List Nat) : DecodeResult :=
  if !marker_open.isPrefixOf s && !marker_done.isPrefixOf s then
    .err
  else if !is_char_boundary s 6 then
    .panic
  else if marker_open.isPrefixOf s then
    .ok { text := s.drop 6, completed := false }
  else
    .ok { text := s.drop 6, completed := true }

/-- Strip one carriage return (byte 13) from the end of a line, as Rust's
`str::lines` does for a `"\r\n"` terminator. -/
def rstripCR (l : List Nat) : List Nat :=
  if l.getLast? = some 13 then l.dropLast else l

/-- Worker for `lines`: split the remaining bytes on byte 10, with `cur` the
reversed bytes of the line being accumulated. A piece terminated by a
newline has a trailing carriage return stripped; a final unterminated piece
is kept as-is, unless it is empty, in which case it is dropped. -/
def linesAux : List Nat → List Nat → List (List Nat)
  | [], cur => if cur.reverse = [] then [] else [cur.reverse]
  | b :: rest, cur =>
    if b = 10 then rstripCR cur.reverse :: linesAux rest []
    else linesAux rest (b :: cur)

/-- Embedding of Rust `str::lines` on the raw bytes: split at `"\n"` or
`"\r\n"`, the final line ending being optional. Byte-level splitting agrees
with Rust's char-level behaviour because bytes 10 and 13 never occur inside
a multi-byte UTF-8 character. -/
def lines (s : List Nat) : List (List Nat) :=
  linesAux s []

/-- Embedding of `Vec::join("\n")` as used by `write_items`. -/
def joinNl : List (List Nat) → List Nat
  | [] => []
  | [l] => l
  | l :: ls => l ++ 10 :: joinNl ls

/-- Embedding of the iterator
`data.lines().filter_map(|line| line.parse::<Item>().ok())` driven to
completion by `Vec::extend`: decode each line in order, dropping parse
errors; a panicking line aborts the whole computation (`none`). -/
def decodeLines : List (List Nat) → Option (List Item)
  | [] => some []
  | l :: ls =>
    match Item.from_str l with
    | .panic => none
    | .ok it => (decodeLines ls).map (fun its => it :: its)
    | .err => decodeLines ls

/-- File-system model: an association list from path to file contents. -/
abbrev FS : Type := List (String × List Nat)

/-- Look a path up in the file-system model (`Path::exists` is `isSome` of
this, and reading returns the stored bytes). -/
def fsLookup : FS → String → Option (List Nat)
  | [], _ => none
  | (q, c) :: rest, p => if q = p then some c else fsLookup rest p

/-- Store contents at a path in the file-system model, replacing any
previous contents (`fs::write` semantics, also used for create-empty). -/
def fsSet : FS → String → List Nat → FS
  | [], p, c => [(p, c)]
  | (q, d) :: rest, p, c =>
    if q = p then (p, c) :: rest else (q, d) :: fsSet rest p c

/-- Embedding of `write_items` (src/main.rs lines 87-101): overwrite `path`
with the items' encodings joined by newlines. -/
def write_items (items : List Item) (p : String) (fs : FS) : FS :=
  fsSet fs p (joinNl (items.map Item.to_string))

/-- Embedding of `read_items` (src/main.rs lines 103-125). When the path
does not exist the default texts are turned into incomplete items; the file
is then opened with `create(true)` (creating it empty when absent), its
contents are read, and every line that decodes is appended. A decoding
panic aborts the call (`none`); I/O errors are not modelled. -/
def read_items (p : String) (default_items : List (List Nat)) (fs : FS) :
    Option (List Item × FS) :=
  let existed := (fsLookup fs p).isSome
  let base := if existed then [] else default_items.map Item.new
  let fs1 := if existed then fs else fsSet fs p []
  let data := (fsLookup fs p).getD []
  match decodeLines (lines data) with
  | some its => some (base ++ its, fs1)
  | none => none

/-- Embedding of `enum InputMode`. -/
inductive InputMode where
  | normal
  | insert
deriving DecidableEq

/-- Key events as seen by the TUI loop: `KeyCode::Char`, `Enter`, `Esc`,
`Backspace`, and a stand-in for every other key code. -/
inductive Key where
  | char (c : Char)
  | enter
  | esc
  | backspace
  | other
deriving DecidableEq

/-- The configuration fields the TUI loop reads: the default habit texts
(as UTF-8 bytes). The day-file path for a given day offset is abstracted as
a function `Int → String`, since it depends on the current date. -/
structure Config where
  habits : List (List Nat)

/-- UTF-8 bytes of a list of characters, modelling what
`String::push`/`drain(..).collect()` accumulate. -/
def utf8Bytes (cs : List Char) : List Nat :=
  (cs.map (fun c => (String.utf8EncodeChar c).map UInt8.toNat)).flatten

/-- The mutable state of the `tui` event loop: the pending input buffer
(`input_text`, as characters, since `String::pop` removes whole
characters), the input mode, the day offset, the bound day-file path, the
item list, and `ListState`'s selection. -/
structure TuiState where
  inputText : List Char
  inputMode : InputMode
  dayOffset : Int
  dayPath : String
  items : List Item
  selected : Option Nat
deriving DecidableEq

/-- Embedding of the shared body of the `'t'`/`'h'`/`'l'` handlers: write
the current items to the current path, recompute the path for the new day
offset, load that file, and reset the list selection
(`ListState::default()`). A load panic aborts (`none`). -/
def gotoDay (pathOf : Int → String) (cfg : Config) (s : TuiState) (fs : FS)
    (newOffset : Int) : Option (TuiState × FS × Bool) :=
  let fs1 := write_items s.items s.dayPath fs
  let newPath := pathOf newOffset
  match read_items newPath cfg.habits fs1 with
  | some (its, fs2) =>
    some ({ s with
              dayOffset := newOffset
              dayPath := newPath
              items := its
              selected := none }, fs2, false)
  | none => none

/-- Embedding of one iteration of the key-event `match` in `tui`
(src/main.rs lines 279-373). The result is `none` on a Rust panic
(out-of-bounds index, or a decoding panic during a day load), and otherwise
carries the new state, the new file system, and whether the loop breaks
(`'q'`). -/
def step (pathOf : Int → String) (cfg : Config) (s : TuiState) (fs : FS) :
    Key → Option (TuiState × FS × Bool)
  | .char c =>
    match s.inputMode with
    | .normal =>
      if c = 'q' then
        some (s, write_items s.items s.dayPath fs, true)
      else if c = 't' then
        gotoDay pathOf cfg s fs 0
      else if c = 'h' then
        gotoDay pathOf cfg s fs (s.dayOffset - 1)
      else if c = 'l' then
        gotoDay pathOf cfg s fs (s.dayOffset + 1)
      else if c = 'j' then
        if s.items.length > 0 then
          let i := match s.selected with
            | some i => (i + 1) % s.items.length
            | none => 0
          some ({ s with selected := some i }, fs, false)
        else
          some (s, fs, false)
      else if c = 'k' then
        if s.items.length > 0 then
          let i := match s.selected with
            | some i => (i + s.items.length - 1) % s.items.length
            | none => s.items.length - 1
          some ({ s with selected := some i }, fs, false)
        else
          some (s, fs, false)
      else if c = 'x' then
        match s.selected with
        | some i =>
          if h : i < s.items.length then
            let items1 := s.items.set i (s.items.get ⟨i, h⟩).toggle
            some ({ s with items := items1 },
              write_items items1 s.dayPath fs, false)
          else
            none
        | none => some (s, write_items s.items s.dayPath fs, false)
      else if c = 'a' then
        some ({ s with inputMode := .insert }, fs, false)
      else if c = 'd' then
        match s.selected with
        | some i =>
          if i < s.items.length then
            let items1 := s.items.eraseIdx i
            let sel1 := if items1.length = 0 then none
              else some ((i + items1.length - 1) % items1.length)
            some ({ s with items := items1, selected := sel1 },
              write_items items1 s.dayPath fs, false)
          else
            none
        | none => some (s, write_items s.items s.dayPath fs, false)
      else
        some (s, fs, false)
    | .insert =>
      some ({ s with inputText := s.inputText ++ [c] }, fs, false)
  | .enter =>
    match s.inputMode with
    | .normal => some (s, fs, false)
    | .insert =>
      let items1 := s.items ++ [Item.new (utf8Bytes s.inputText)]
      some ({ s with
                items := items1
                inputText := []
                inputMode := .normal }, write_items items1 s.dayPath fs, false)
  | .esc =>
    match s.inputMode with
    | .normal => some (s, fs, false)
    | .insert => some ({ s with inputMode := .normal }, fs, false)
  | .backspace =>
    match s.inputMode with
    | .normal => some (s, fs, false)
    | .insert => some ({ s with inputText := s.inputText.dropLast }, fs, false)
  | .other => some (s, fs, false)

/-- Embedding of the initialisation of the `tui` session (src/main.rs lines
186-192): offset 0, load today's file, empty input buffer, normal mode, and
a default `ListState` (no selection). -/
def initTui (pathOf : Int → String) (cfg : Config) (fs : FS) :
    Option (TuiState × FS) :=
  match read_items (pathOf 0) cfg.habits fs with
  | some (its, fs1) =>
    some ({ inputText := []
            inputMode := .normal
            dayOffset := 0
            dayPath := pathOf 0
            items := its
            selected := none }, fs1)
  | none => none

/-- Run a list of key events through `step`, stopping at a quit or a panic. -/
def run (pathOf : Int → String) (cfg : Config) :
    TuiState → FS → List Key → Option (TuiState × FS × Bool)
  | s, fs, [] => some (s, fs, false)
  | s, fs, k :: ks =>
    match step pathOf cfg s fs k with
    | some (s1, fs1, true) => some (s1, fs1, true)
    | some (s1, fs1, false) => run pathOf cfg s1 fs1 ks
    | none => none

/-- Selection invariant maintained by the session: when an index is
selected it is in bounds (which forces the list to be non-empty); no
selection is always acceptable. -/
def selOk (s : TuiState) : Bool :=
  match s.selected with
  | none => true
  | some i => decide (i < s.items.length)

/-- The invariant as the specification words it: the selection is `none`
exactly when the item list is empty, and any selected index is in bounds. -/
def selOkClaimed (s : TuiState) : Bool :=
  match s.selected with
  | none => s.items.isEmpty
  | some i => decide (i < s.items.length)

/-- First-byte property of every valid UTF-8 string: a nonempty string
never starts with a continuation byte. Texts that come from Rust `String`s
always satisfy it; it is the side condition under which byte-offset-6
slicing of an encoded line is boundary-safe. -/
def utf8Start (t : List Nat) : Bool :=
  match t with
  | [] => true
  | b :: _ => !contByte b

/-- Concrete session state: normal mode, three items, last one selected. -/
def exState3 : TuiState :=
  { inputText := []
    inputMode := .normal
    dayOffset := 0
    dayPath := "p"
    items := [⟨[97], false⟩, ⟨[98], false⟩, ⟨[99], false⟩]
    selected := some 2 }

/-- Concrete session state: normal mode, a single selected item. -/
def exState1 : TuiState :=
  { inputText := []
    inputMode := .normal
    dayOffset := 0
    dayPath := "p"
    items := [⟨[97], false⟩]
    selected := some 0 }

/-- Concrete session state: normal mode, two items, nothing selected (the
shape produced by a fresh day-file load). -/
def exStateNone : TuiState :=
  { inputText := []
    inputMode := .normal
    dayOffset := 0
    dayPath := "p"
    items := [⟨[97], false⟩, ⟨[98], false⟩]
    selected := none }

/-- Concrete session state: normal mode, no items, empty input buffer. -/
def exStateEmpty : TuiState :=
  { inputText := []
    inputMode := .normal
    dayOffset := 0
    dayPath := "p"
    items := []
    selected := none }

/-- Concrete session state: insert mode with a pending character and an
empty item list. -/
def exStateInsert : TuiState :=
  { inputText := ['z']
    inputMode := .insert
    dayOffset := 0
    dayPath := "p"
    items := []
    selected := none }

/-- Looking up the path just stored finds exactly the stored bytes. -/
theorem fsLookup_fsSet_self (fs : FS) (p : String) (c : List Nat) :
    fsLookup (fsSet fs p c) p = some c := by
  induction fs with
  | nil => simp [fsSet, fsLookup]
  | cons hd tl ih =>
    obtain ⟨q, d⟩ := hd
    by_cases hq : q = p
    · simp [fsSet, fsLookup, hq]
    · simp [fsSet, fsLookup, hq, ih]

/-- Storing at one path leaves every other path's contents unchanged. -/
theorem fsLookup_fsSet_ne (fs : FS) (p q : String) (c : List Nat)
    (h : p ≠ q) : fsLookup (fsSet fs p c) q = fsLookup fs q := by
  induction fs with
  | nil => simp [fsSet, fsLookup, h]
  | cons hd tl ih =>
    obtain ⟨x, d⟩ := hd
    by_cases hx : x = p
    · subst hx; simp [fsSet, fsLookup, h]
    · simp only [fsSet, fsLookup, if_neg hx]
      by_cases hq : x = q
      · simp [fsLookup, hq]
      · simp [fsLookup, hq, ih]

/-- Loading one path never disturbs the contents stored at any path that
already exists (the only write `read_items` performs is creating the read
path itself, empty, when absent). -/
theorem read_items_preserves_entry (p q : String) (ds : List (List Nat))
    (fs fs1 : FS) (its : List Item) (c : List Nat)
    (hq : fsLookup fs q = some c)
    (h : read_items p ds fs = some (its, fs1)) :
    fsLookup fs1 q = some c := by
  by_cases he : (fsLookup fs p).isSome
  · simp only [read_items, he, if_pos] at h
    rcases hdec : decodeLines (lines ((fsLookup fs p).getD [])) with _ | its'
    · rw [hdec] at h; exact absurd h (by simp)
    · rw [hdec] at h
      simp only [Option.some.injEq, Prod.mk.injEq] at h
      rw [← h.2]
      exact hq
  · have hpq : p ≠ q := by
      intro hpq
      rw [hpq, hq] at he
      exact he rfl
    have he' : (fsLookup fs p).isSome = false := by simpa using he
    simp only [read_items, he', Bool.false_eq_true, if_false] at h
    rcases hdec : decodeLines (lines ((fsLookup fs p).getD [])) with _ | its'
    · rw [hdec] at h; exact absurd h (by simp)
    · rw [hdec] at h
      simp only [Option.some.injEq, Prod.mk.injEq] at h
      rw [← h.2, fsLookup_fsSet_ne fs p q [] hpq]
      exact hq

/-- Claim C1 (code bug): loading a day-file is NOT panic-free. A file whose
single line is the bare 5-byte marker `"- [ ]"` (bytes 45 32 91 32 93, with
nothing after it) makes `Item::from_str` evaluate `&s[6..]` on a 5-byte
string, which panics and aborts `read_items` (modelled as `none`), instead
of the line being silently dropped and `Ok` returned as the specification
states. -/
theorem read_items_panics_on_bare_marker_line :
    read_items "d" [] [("d", [45, 32, 91, 32, 93])] = none := by decide

/-- Claim C2 (counterexample): the line `"- [ ]Z"` (bytes 45 32 91 32 93 90)
does not carry the claimed 6-byte prefix `"- [ ] "` — its sixth byte is
`'Z'`, not a space — yet `Item.from_str` accepts it (with empty text, the
`'Z'` being skipped) instead of failing with a parse error; and the bare
5-byte marker `"- [ ]"` panics instead of failing with a parse error. -/
theorem from_str_prefix_counterexample :
    Item.from_str [45, 32, 91, 32, 93, 90]
        = .ok { text := [], completed := false }
      ∧ Item.from_str [45, 32, 91, 32, 93] = .panic := by decide

set_option maxRecDepth 8000

/-- Claim C2 (amended): `Item.from_str` returns `Ok` exactly when the line
starts with one of the 5-byte markers `"- [ ]"` / `"- [x]"` and byte offset
6 is a valid character boundary of the line (for ASCII lines: at least one
byte follows the marker); the byte after the marker is skipped without
being required to be a space. On success the text is the remainder of the
line after its first 6 bytes, verbatim. A line that starts with a marker
but has no valid boundary at offset 6 (notably the bare 5-byte marker)
panics, and only lines that start with neither marker fail with the parse
error. -/
theorem from_str_characterization (s : List Nat) :
    (Item.from_str s = .err ↔
      (marker_open.isPrefixOf s = false ∧ marker_done.isPrefixOf s = false))
    ∧ (Item.from_str s = .panic ↔
      ((marker_open.isPrefixOf s = true ∨ marker_done.isPrefixOf s = true)
        ∧ is_char_boundary s 6 = false))
    ∧ (∀ it, Item.from_str s = .ok it ↔
      ((marker_open.isPrefixOf s = true ∧ is_char_boundary s 6 = true
          ∧ it = { text := s.drop 6, completed := false })
        ∨ (marker_open.isPrefixOf s = false ∧ marker_done.isPrefixOf s = true
          ∧ is_char_boundary s 6 = true
          ∧ it = { text := s.drop 6, completed := true }))) := by
  unfold Item.from_str
  rcases h1 : marker_open.isPrefixOf s with _ | _
  all_goals rcases h2 : marker_done.isPrefixOf s with _ | _
  all_goals rcases h3 : is_char_boundary s 6 with _ | _
  all_goals simp [eq_comm]

/-- Claim C4 (counterexample): committing a new item from Insert mode on an
empty list appends it but leaves the selection `none` — the `'Enter'`
handler never touches `items_state` — whereas the claim says the selection
becomes `Some(0)` when the list was empty. -/
theorem push_empty_list_selection_counterexample :
    (step (fun _ => "p") ⟨[]⟩ exStateInsert [] .enter).map
        (fun r => r.1.selected) = some none
      ∧ (none : Option Nat) ≠ some 0 := by decide

/-- Claim C4 (amended): committing the pending input appends
`Item::new(input_text)` at the end of the list, drains the buffer, returns
to Normal mode and flushes — and the selection is unchanged in every case:
it stays `none` when the list was empty rather than becoming `Some(0)`. -/
theorem push_appends_selection_unchanged (pathOf : Int → String)
    (cfg : Config) (s : TuiState) (fs : FS)
    (hmode : s.inputMode = .insert) :
    step pathOf cfg s fs .enter
        = some ({ s with
            items := s.items ++ [Item.new (utf8Bytes s.inputText)]
            inputText := []
            inputMode := .normal },
          write_items (s.items ++ [Item.new (utf8Bytes s.inputText)])
            s.dayPath fs, false)
      ∧ ∀ r, step pathOf cfg s fs .enter = some r →
          r.1.selected = s.selected := by
  refine ⟨by simp [step, hmode], ?_⟩
  intro r hr
  simp [step, hmode] at hr
  rw [← hr]

/-- Claim C4 (witness): the amended push behaviour evaluated on the
concrete Insert-mode state with pending text `"z"` and an empty list. -/
theorem push_appends_selection_unchanged_witness :
    step (fun _ => "p") ⟨[]⟩ exStateInsert [] .enter
        = some ({ exStateInsert with
            items := [Item.new [122]]
            inputText := []
            inputMode := .normal },
          [("p", [45, 32, 91, 32, 93, 32, 122])], false) :=
  (push_appends_selection_unchanged (fun _ => "p") ⟨[]⟩ exStateInsert []
    rfl).1

/-- Claim C5 (counterexample): the pending buffer is NOT empty whenever
Insert mode is entered. Starting from an empty Normal-mode session, the key
sequence add, `'z'`, escape, add ends in Insert mode with the buffer still
holding `"z"`: the `'a'` handler only switches the mode and never clears
`input_text`, and escape does not discard it. -/
theorem insert_pending_buffer_counterexample :
    (run (fun _ => "p") ⟨[]⟩ exStateEmpty []
        [.char 'a', .char 'z', .esc, .char 'a']).map
        (fun r => (r.1.inputMode, r.1.inputText))
        = some (.insert, ['z'])
      ∧ (['z'] : List Char) ≠ [] := by decide

/-- Claim C5 (amended): pressing add in Normal mode enters Insert mode
without clearing `pending_text` (the buffer is emptied only when Enter
commits it); pressing escape in Insert mode returns to Normal with
`pending_text` retained rather than discarded, and performs no flush — the
item list, the selection and the file system are all unchanged (both
transitions change the mode field only). -/
theorem insert_mode_enter_and_cancel (pathOf : Int → String) (cfg : Config)
    (s : TuiState) (fs : FS) :
    (s.inputMode = .normal →
      step pathOf cfg s fs (.char 'a')
        = some ({ s with inputMode := .insert }, fs, false))
    ∧ (s.inputMode = .insert →
      step pathOf cfg s fs .esc
        = some ({ s with inputMode := .normal }, fs, false)) := by
  constructor
  · intro hmode
    simp [step, hmode]
  · intro hmode
    simp [step, hmode]

/-- Claim C5 (witness): the amended transitions evaluated on concrete
states — add from the empty Normal-mode state and escape from the
Insert-mode state with pending text `"z"`. -/
theorem insert_mode_enter_and_cancel_witness :
    step (fun _ => "p") ⟨[]⟩ exStateEmpty [] (.char 'a')
        = some ({ exStateEmpty with inputMode := .insert }, [], false)
      ∧ step (fun _ => "p") ⟨[]⟩ exStateInsert [] .esc
        = some ({ exStateInsert with inputMode := .normal }, [], false) :=
  ⟨(insert_mode_enter_and_cancel (fun _ => "p") ⟨[]⟩ exStateEmpty []).1 rfl,
    (insert_mode_enter_and_cancel (fun _ => "p") ⟨[]⟩ exStateInsert []).2 rfl⟩

/-- Claim C10 (confirmed): with a non-empty list and no selection (the
state a fresh day-file load produces), move-down selects index 0 and
move-up selects the last index; on an empty list both keys leave the state,
the file system and the loop untouched. -/
theorem move_keys_from_no_selection (pathOf : Int → String) (cfg : Config)
    (s : TuiState) (fs : FS)
    (hmode : s.inputMode = .normal) (hsel : s.selected = none) :
    (s.items ≠ [] →
      step pathOf cfg s fs (.char 'j')
          = some ({ s with selected := some 0 }, fs, false)
        ∧ step pathOf cfg s fs (.char 'k')
          = some ({ s with selected := some (s.items.length - 1) }, fs,
              false))
    ∧ (s.items = [] →
      step pathOf cfg s fs (.char 'j') = some (s, fs, false)
        ∧ step pathOf cfg s fs (.char 'k') = some (s, fs, false)) := by
  constructor
  · intro hne
    have hlen : 0 < s.items.length := List.length_pos.mpr hne
    constructor
    · simp [step, hmode, hsel, hlen]
    · simp [step, hmode, hsel, hlen]
  · intro hemp
    constructor
    · simp [step, hmode, hsel, hemp]
    · simp [step, hmode, hsel, hemp]

/-- Claim C10 (witness): the move keys evaluated on the concrete two-item
state with no selection and on the concrete empty state. -/
theorem move_keys_from_no_selection_witness :
    (step (fun _ => "p") ⟨[]⟩ exStateNone [] (.char 'j')
        = some ({ exStateNone with selected := some 0 }, [], false))
      ∧ (step (fun _ => "p") ⟨[]⟩ exStateEmpty [] (.char 'k')
        = some (exStateEmpty, [], false)) :=
  ⟨((move_keys_from_no_selection (fun _ => "p") ⟨[]⟩ exStateNone [] rfl
      rfl).1 (by decide)).1,
    ((move_keys_from_no_selection (fun _ => "p") ⟨[]⟩ exStateEmpty [] rfl
      rfl).2 rfl).2⟩

/-- Claim C9 (confirmed): with an in-bounds selection `i`, the delete key
removes the item at `i`, flushes, and the new selection is `none` when the
list became empty and otherwise the previous index modulo the new length
(the code's `(i + new_len - 1) % new_len`); the second conjunct states the
wrap-around reading: the successor of the new selection, modulo the new
length, is the removed index again. -/
theorem remove_selected_spec (pathOf : Int → String) (cfg : Config)
    (s : TuiState) (fs : FS) (i : Nat)
    (hmode : s.inputMode = .normal) (hsel : s.selected = some i)
    (hi : i < s.items.length) :
    step pathOf cfg s fs (.char 'd')
        = some ({ s with
            items := s.items.eraseIdx i
            selected := if (s.items.eraseIdx i).length = 0 then none
              else some ((i + (s.items.eraseIdx i).length - 1)
                % (s.items.eraseIdx i).length) },
          write_items (s.items.eraseIdx i) s.dayPath fs, false)
      ∧ ((s.items.eraseIdx i).length ≠ 0 →
          ((i + (s.items.eraseIdx i).length - 1)
              % (s.items.eraseIdx i).length + 1)
            % (s.items.eraseIdx i).length
            = i % (s.items.eraseIdx i).length) := by
  constructor
  · simp [step, hmode, hsel, hi]
  · intro hne
    have hpos : 0 < (s.items.eraseIdx i).length := Nat.pos_of_ne_zero hne
    rw [Nat.mod_add_mod]
    have : i + (s.items.eraseIdx i).length - 1 + 1
        = i + (s.items.eraseIdx i).length := by omega
    rw [this, Nat.add_mod_right]

/-- Claim C9 (witness): deleting with the last of three items selected
leaves selection `Some 1`, and deleting the sole item leaves selection
`none`; both follow by evaluating the general statement on the concrete
states. -/
theorem remove_selected_spec_witness :
    step (fun _ => "p") ⟨[]⟩ exState3 [] (.char 'd')
        = some ({ exState3 with
            items := [⟨[97], false⟩, ⟨[98], false⟩]
            selected := some 1 },
          [("p", [45, 32, 91, 32, 93, 32, 97, 10, 45, 32, 91, 32, 93, 32,
            98])], false)
      ∧ step (fun _ => "p") ⟨[]⟩ exState1 [] (.char 'd')
        = some ({ exState1 with
            items := []
            selected := none },
          [("p", [])], false) :=
  ⟨(remove_selected_spec (fun _ => "p") ⟨[]⟩ exState3 [] 2 rfl rfl
      (by decide)).1,
    (remove_selected_spec (fun _ => "p") ⟨[]⟩ exState1 [] 0 rfl rfl
      (by decide)).1⟩

/-- Claim C6 (confirmed): each day-navigation key first writes the current
list to the current path and only then reads the new day's file (the load
runs on the file system that already contains the flush, and the old
path's contents in the resulting file system are exactly the flushed
encoding — loading never disturbs it); quit writes the current list to the
current path before breaking the loop. -/
theorem flush_before_day_change_and_quit (pathOf : Int → String)
    (cfg : Config) (s : TuiState) (fs : FS)
    (hmode : s.inputMode = .normal) :
    (step pathOf cfg s fs (.char 't') = gotoDay pathOf cfg s fs 0
      ∧ step pathOf cfg s fs (.char 'h')
          = gotoDay pathOf cfg s fs (s.dayOffset - 1)
      ∧ step pathOf cfg s fs (.char 'l')
          = gotoDay pathOf cfg s fs (s.dayOffset + 1))
    ∧ (∀ off, gotoDay pathOf cfg s fs off
        = (read_items (pathOf off) cfg.habits
            (write_items s.items s.dayPath fs)).map
          (fun rf => ({ s with
              dayOffset := off
              dayPath := pathOf off
              items := rf.1
              selected := none }, rf.2, false)))
    ∧ (∀ off r, gotoDay pathOf cfg s fs off = some r →
        fsLookup r.2.1 s.dayPath
          = some (joinNl (s.items.map Item.to_string)))
    ∧ step pathOf cfg s fs (.char 'q')
        = some (s, write_items s.items s.dayPath fs, true) := by
  refine ⟨⟨by simp [step, hmode], by simp [step, hmode],
    by simp [step, hmode]⟩, ?_, ?_, by simp [step, hmode]⟩
  · intro off
    rcases hr : read_items (pathOf off) cfg.habits
        (write_items s.items s.dayPath fs) with _ | ⟨its, fs2⟩
    · simp [gotoDay, hr]
    · simp [gotoDay, hr]
  · intro off r hr
    simp only [gotoDay] at hr
    rcases hread : read_items (pathOf off) cfg.habits
        (write_items s.items s.dayPath fs) with _ | ⟨its, fs2⟩
    · rw [hread] at hr; exact absurd hr (by simp)
    · rw [hread] at hr
      simp only [Option.some.injEq] at hr
      have hr2 : r.2.1 = fs2 := by rw [← hr]
      rw [hr2]
      exact read_items_preserves_entry (pathOf off) s.dayPath cfg.habits
        (write_items s.items s.dayPath fs) fs2 its
        (joinNl (s.items.map Item.to_string))
        (fsLookup_fsSet_self fs s.dayPath
          (joinNl (s.items.map Item.to_string))) hread

/-- Claim C6 (witness): quitting from the concrete one-item session writes
that item's encoding to the bound path before the loop breaks. -/
theorem flush_before_day_change_and_quit_witness :
    step (fun _ => "p") ⟨[]⟩ exState1 [] (.char 'q')
        = some (exState1, [("p", [45, 32, 91, 32, 93, 32, 97])], true) :=
  (flush_before_day_change_and_quit (fun _ => "p") ⟨[]⟩ exState1 []
    rfl).2.2.2

/-- Claim C8 (confirmed): when the path is absent, loading returns one
incomplete item per default entry, in order, and the file now exists
(created empty); when the path exists and loading returns, no defaults are
added and the returned items are exactly the file's decoded lines with the
file system untouched; in particular an existing-but-empty file yields an
empty list. -/
theorem read_items_default_seeding (p : String)
    (defaults : List (List Nat)) (fs : FS) :
    (fsLookup fs p = none →
      read_items p defaults fs
          = some (defaults.map Item.new, fsSet fs p [])
        ∧ fsLookup (fsSet fs p []) p = some [])
    ∧ (∀ content its fs1, fsLookup fs p = some content →
        read_items p defaults fs = some (its, fs1) →
        decodeLines (lines content) = some its ∧ fs1 = fs)
    ∧ (fsLookup fs p = some [] → read_items p defaults fs = some ([], fs)) := by
  refine ⟨?_, ?_, ?_⟩
  · intro habs
    refine ⟨?_, fsLookup_fsSet_self fs p []⟩
    simp [read_items, habs, lines, linesAux, decodeLines]
  · intro content its fs1 hpres h
    have hsome : (fsLookup fs p).isSome = true := by rw [hpres]; rfl
    simp only [read_items, hsome, if_true, hpres, Option.getD_some,
      Option.isSome_some] at h
    rcases hdec : decodeLines (lines content) with _ | its'
    · rw [hdec] at h; exact absurd h (by simp)
    · rw [hdec] at h
      simp only [Option.some.injEq, Prod.mk.injEq, List.nil_append] at h
      exact ⟨congrArg some h.1, h.2.symm⟩
  · intro hemp
    have hsome : (fsLookup fs p).isSome = true := by rw [hemp]; rfl
    simp [read_items, hsome, hemp, lines, linesAux, decodeLines]

/-- Claim C8 (witness): loading a missing path with defaults `"a"`, `"b"`
yields the two incomplete items and creates the file empty; loading an
existing empty file yields the empty list with no defaults added. -/
theorem read_items_default_seeding_witness :
    (read_items "p" [[97], [98]] []
        = some ([Item.new [97], Item.new [98]], [("p", [])])
      ∧ fsLookup [("p", [])] "p" = some [])
      ∧ read_items "p" [[97], [98]] [("p", [])] = some ([], [("p", [])]) :=
  ⟨(read_items_default_seeding "p" [[97], [98]] []).1 rfl,
    (read_items_default_seeding "p" [[97], [98]] [("p", [])]).2.2 rfl⟩

/-- Unfolding of `selOk`: the invariant says exactly that any selected
index is in bounds. -/
theorem selOk_iff (s : TuiState) :
    selOk s = true ↔ ∀ i, s.selected = some i → i < s.items.length := by
  unfold selOk
  rcases s.selected with _ | i <;> simp

/-- Equation lemma: the toggle key in normal mode. -/
theorem step_char_x_eq (pathOf : Int → String) (cfg : Config)
    (s : TuiState) (fs : FS) (hm : s.inputMode = .normal) :
    step pathOf cfg s fs (.char 'x')
      = match s.selected with
        | some i =>
          if h : i < s.items.length then
            some ({ s with
                items := s.items.set i (s.items.get ⟨i, h⟩).toggle },
              write_items (s.items.set i (s.items.get ⟨i, h⟩).toggle)
                s.dayPath fs, false)
          else none
        | none => some (s, write_items s.items s.dayPath fs, false) := by
  simp [step, hm]

/-- Equation lemma: the delete key in normal mode. -/
theorem step_char_d_eq (pathOf : Int → String) (cfg : Config)
    (s : TuiState) (fs : FS) (hm : s.inputMode = .normal) :
    step pathOf cfg s fs (.char 'd')
      = match s.selected with
        | some i =>
          if i < s.items.length then
            some ({ s with
                items := s.items.eraseIdx i
                selected := if (s.items.eraseIdx i).length = 0 then none
                  else some ((i + (s.items.eraseIdx i).length - 1)
                    % (s.items.eraseIdx i).length) },
              write_items (s.items.eraseIdx i) s.dayPath fs, false)
          else none
        | none => some (s, write_items s.items s.dayPath fs, false) := by
  simp [step, hm]

/-- Claim C3 (amended): the selection invariant that construction
establishes and every session operation preserves is the weaker one — any
selected index is in bounds (which forces the list to be non-empty); the
selection may well be `none` with a non-empty list (construction always
resets it to `none`, and push keeps it `none`), so only the in-bounds half
of the claimed invariant holds throughout a session. -/
theorem sel_invariant_init_and_preserved (pathOf : Int → String)
    (cfg : Config) (s : TuiState) (fs : FS) (key : Key) :
    (∀ r, initTui pathOf cfg fs = some r → selOk r.1 = true)
    ∧ (selOk s = true → ∀ r, step pathOf cfg s fs key = some r →
        selOk r.1 = true) := by
  constructor
  · intro r hr
    simp only [initTui] at hr
    rcases hread : read_items (pathOf 0) cfg.habits fs with _ | ⟨its, fs1⟩
    · rw [hread] at hr; exact absurd hr (by simp)
    · rw [hread] at hr
      simp only [Option.some.injEq] at hr
      rw [← hr]
      rfl
  · intro hs r hr
    have hbound := (selOk_iff s).mp hs
    have hgoto : ∀ off, gotoDay pathOf cfg s fs off = some r →
        selOk r.1 = true := by
      intro off hgd
      simp only [gotoDay] at hgd
      rcases hread : read_items (pathOf off) cfg.habits
          (write_items s.items s.dayPath fs) with _ | ⟨its, fs2⟩
      · rw [hread] at hgd; exact absurd hgd (by simp)
      · rw [hread] at hgd
        simp only [Option.some.injEq] at hgd
        rw [← hgd]
        rfl
    cases key with
    | other =>
      simp [step] at hr
      rw [← hr]; exact hs
    | enter =>
      rcases hm : s.inputMode with _ | _
      · simp [step, hm] at hr
        rw [← hr]; exact hs
      · simp [step, hm] at hr
        rw [← hr]
        rcases hsel0 : s.selected with _ | i0
        · simp [selOk, hsel0]
        · have := hbound i0 hsel0
          simp [selOk, hsel0, List.length_append]
          omega
    | esc =>
      rcases hm : s.inputMode with _ | _ <;> simp [step, hm] at hr <;>
        rw [← hr] <;> exact hs
    | backspace =>
      rcases hm : s.inputMode with _ | _ <;> simp [step, hm] at hr <;>
        rw [← hr] <;> exact hs
    | char c =>
      rcases hm : s.inputMode with _ | _
      · by_cases hq : c = 'q'
        · simp [step, hm, hq] at hr
          rw [← hr]; exact hs
        · by_cases ht : c = 't'
          · simp [step, hm, hq, ht] at hr
            exact hgoto 0 hr
          · by_cases hh : c = 'h'
            · simp [step, hm, hq, ht, hh] at hr
              exact hgoto (s.dayOffset - 1) hr
            · by_cases hl : c = 'l'
              · simp [step, hm, hq, ht, hh, hl] at hr
                exact hgoto (s.dayOffset + 1) hr
              · by_cases hj : c = 'j'
                · simp [step, hm, hq, ht, hh, hl, hj] at hr
                  by_cases hlen : 0 < s.items.length
                  · rcases hsel0 : s.selected with _ | i0
                    · rw [hsel0] at hr
                      simp [hlen] at hr
                      rw [← hr]
                      simp [selOk, hlen]
                    · rw [hsel0] at hr
                      simp [hlen] at hr
                      rw [← hr]
                      simp [selOk]
                      exact Nat.mod_lt _ hlen
                  · simp [hlen] at hr
                    rw [← hr]; exact hs
                · by_cases hk : c = 'k'
                  · simp [step, hm, hq, ht, hh, hl, hj, hk] at hr
                    by_cases hlen : 0 < s.items.length
                    · rcases hsel0 : s.selected with _ | i0
                      · rw [hsel0] at hr
                        simp [hlen] at hr
                        rw [← hr]
                        simp [selOk]
                        omega
                      · rw [hsel0] at hr
                        simp [hlen] at hr
                        rw [← hr]
                        simp [selOk]
                        exact Nat.mod_lt _ hlen
                    · simp [hlen] at hr
                      rw [← hr]; exact hs
                  · by_cases hx : c = 'x'
                    · subst hx
                      rw [step_char_x_eq pathOf cfg s fs hm] at hr
                      rcases hsel0 : s.selected with _ | i0
                      · rw [hsel0] at hr
                        simp only [Option.some.injEq] at hr
                        rw [← hr]; exact hs
                      · rw [hsel0] at hr
                        have hi0 : i0 < s.items.length := hbound i0 hsel0
                        simp only [hi0, dif_pos, Option.some.injEq] at hr
                        rw [← hr]
                        simp [selOk, List.length_set, hi0]
                    · by_cases ha : c = 'a'
                      · simp [step, hm, hq, ht, hh, hl, hj, hk, hx, ha] at hr
                        rw [← hr]
                        rcases hsel0 : s.selected with _ | i0
                        · simp [selOk, hsel0]
                        · have := hbound i0 hsel0
                          simp [selOk, hsel0]
                          omega
                      · by_cases hd : c = 'd'
                        · subst hd
                          rw [step_char_d_eq pathOf cfg s fs hm] at hr
                          rcases hsel0 : s.selected with _ | i0
                          · rw [hsel0] at hr
                            simp only [Option.some.injEq] at hr
                            rw [← hr]; exact hs
                          · rw [hsel0] at hr
                            have hi0 : i0 < s.items.length :=
                              hbound i0 hsel0
                            simp only [hi0, if_pos, Option.some.injEq] at hr
                            rw [← hr]
                            by_cases hz : (s.items.eraseIdx i0).length = 0
                            · simp [selOk, hz]
                            · simp [selOk, hz]
                              exact Nat.mod_lt _ (Nat.pos_of_ne_zero hz)
                        · simp [step, hm, hq, ht, hh, hl, hj, hk, hx, ha,
                            hd] at hr
                          rw [← hr]; exact hs
      · simp [step, hm] at hr
        rw [← hr]; exact hs

/-- Claim C3 (counterexample): construction does not establish the claimed
invariant. Loading a day-file that contains one decodable item yields a
session state whose list is non-empty while its selection is `none`
(`ListState::default()`), so the claimed "`selected` is `None` iff `items`
is empty" fails immediately after construction. -/
theorem selectable_invariant_counterexample :
    (initTui (fun _ => "p") ⟨[]⟩ [("p", [45, 32, 91, 32, 93, 32, 97])]).map
        (fun r => (selOkClaimed r.1, r.1.items.isEmpty, r.1.selected))
        = some (false, false, none) := by decide

/-- Claim C3 (witness): the preservation statement evaluated on the
concrete three-item state with the last item selected and the move-down
key: the resulting selection `some 0` is in bounds. -/
theorem sel_invariant_init_and_preserved_witness :
    selOk ({ exState3 with selected := some 0 }) = true :=
  (sel_invariant_init_and_preserved (fun _ => "p") ⟨[]⟩ exState3 []
      (.char 'j')).2 (by decide)
    ({ exState3 with selected := some 0 }, [], false) (by decide)


/-- Splitting a newline-free piece followed by a newline emits the piece
(carriage-return-stripped) and continues. -/
theorem linesAux_append_nl (l s acc : List Nat) (h : 10 ∉ l) :
    linesAux (l ++ 10 :: s) acc
      = rstripCR (acc.reverse ++ l) :: linesAux s [] := by
  induction l generalizing acc with
  | nil => simp [linesAux]
  | cons b l ih =>
    have hb : b ≠ 10 := fun hb => h (hb ▸ List.mem_cons_self b l)
    have hl : 10 ∉ l := fun hm => h (List.mem_cons_of_mem b hm)
    show linesAux (b :: (l ++ 10 :: s)) acc = _
    rw [linesAux]
    rw [if_neg hb]
    rw [ih (b :: acc) hl]
    simp

/-- A final newline-free, non-empty piece is emitted as-is. -/
theorem linesAux_no_nl (l acc : List Nat) (h : 10 ∉ l)
    (hne : acc.reverse ++ l ≠ []) :
    linesAux l acc = [acc.reverse ++ l] := by
  induction l generalizing acc with
  | nil =>
    simp only [List.append_nil] at hne
    simp [linesAux, hne]
  | cons b l ih =>
    have hb : b ≠ 10 := fun hb => h (hb ▸ List.mem_cons_self b l)
    have hl : 10 ∉ l := fun hm => h (List.mem_cons_of_mem b hm)
    rw [linesAux]
    rw [if_neg hb]
    rw [ih (b :: acc) hl (by simp)]
    simp

/-- `lines` undoes `joinNl` when the pieces are non-empty, newline-free and
(for all but the last) do not end in a carriage return (Rust strips a
carriage return before a newline). -/
theorem lines_joinNl (ls : List (List Nat))
    (hnl : ∀ l ∈ ls, 10 ∉ l)
    (hne : ∀ l ∈ ls, l ≠ [])
    (hcr : ∀ l ∈ ls.dropLast, l.getLast? ≠ some 13) :
    lines (joinNl ls) = ls := by
  induction ls with
  | nil => simp [joinNl, lines, linesAux]
  | cons l ls ih =>
    cases ls with
    | nil =>
      show lines l = [l]
      unfold lines
      rw [linesAux_no_nl l [] (hnl l (by simp)) (by simpa using hne l (by simp))]
      simp
    | cons l2 ls2 =>
      show lines (l ++ 10 :: joinNl (l2 :: ls2)) = l :: l2 :: ls2
      unfold lines
      rw [linesAux_append_nl _ _ _ (hnl l (by simp))]
      have hcr0 : l.getLast? ≠ some 13 := by
        apply hcr
        simp [List.dropLast_cons_of_ne_nil]
      have : rstripCR ([].reverse ++ l) = l := by
        simp only [List.reverse_nil, List.nil_append]
        unfold rstripCR
        rw [if_neg hcr0]
      rw [this]
      have ih2 := ih (fun x hx => hnl x (List.mem_cons_of_mem l hx))
        (fun x hx => hne x (List.mem_cons_of_mem l hx))
        (fun x hx => by
          apply hcr
          rw [List.dropLast_cons_of_ne_nil (by simp)]
          exact List.mem_cons_of_mem l hx)
      unfold lines at ih2
      rw [ih2]

/-- An encoded item line is never empty. -/
theorem to_string_ne_nil (it : Item) : it.to_string ≠ [] := by
  unfold Item.to_string
  rcases it.completed with _ | _ <;> simp [marker_open, marker_done]

/-- An encoded item line contains no newline byte when its text has none. -/
theorem to_string_not_mem_nl (it : Item) (h : 10 ∉ it.text) :
    10 ∉ it.to_string := by
  unfold Item.to_string
  rcases it.completed with _ | _ <;>
    simp [marker_open, marker_done, h]

/-- Prepending a non-carriage-return byte keeps the last byte away from 13. -/
theorem getLast_cons_ne (a : Nat) (t : List Nat) (ha : a ≠ 13)
    (h : t.getLast? ≠ some 13) : (a :: t).getLast? ≠ some 13 := by
  induction t generalizing a with
  | nil => simp [ha]
  | cons b t ih =>
    rw [List.getLast?_cons_cons]
    exact h

/-- An encoded item line does not end in a carriage return when its text
does not. -/
theorem to_string_getLast_ne_cr (it : Item)
    (h : it.text.getLast? ≠ some 13) :
    it.to_string.getLast? ≠ some 13 := by
  have key : ((32 : Nat) :: it.text).getLast? ≠ some 13 :=
    getLast_cons_ne 32 it.text (by omega) h
  unfold Item.to_string
  rcases it.completed with _ | _ <;>
    · simp only [marker_open, marker_done, Bool.false_eq_true, if_false,
        if_true, List.cons_append, List.nil_append]
      repeat rw [List.getLast?_cons_cons]
      exact key

/-- Decoding inverts encoding, provided the text does not start with a
UTF-8 continuation byte (automatic for texts of real Rust strings). -/
theorem from_str_to_string (it : Item) (h : utf8Start it.text = true) :
    Item.from_str it.to_string = .ok it := by
  obtain ⟨t, c⟩ := it
  have hb : ∀ b t2, t = b :: t2 → contByte b = false := by
    intro b t2 ht
    rw [ht] at h
    simpa [utf8Start] using h
  rcases c with _ | _
  · show Item.from_str (marker_open ++ 32 :: t) = .ok ⟨t, false⟩
    have hpre : marker_open.isPrefixOf (marker_open ++ 32 :: t) = true := by
      simp [marker_open, List.isPrefixOf]
    have hnpre : marker_done.isPrefixOf (marker_open ++ 32 :: t)
        = false := by
      simp [marker_open, marker_done, List.isPrefixOf]
    have hbd : is_char_boundary (marker_open ++ 32 :: t) 6 = true := by
      unfold is_char_boundary
      rcases t with _ | ⟨b, t2⟩
      · simp [marker_open]
      · have := hb b t2 rfl
        simp [marker_open, this]
    unfold Item.from_str
    rw [hpre, hnpre, hbd]
    simp [marker_open]
  · show Item.from_str (marker_done ++ 32 :: t) = .ok ⟨t, true⟩
    have hpre : marker_done.isPrefixOf (marker_done ++ 32 :: t) = true := by
      simp [marker_done, List.isPrefixOf]
    have hnpre : marker_open.isPrefixOf (marker_done ++ 32 :: t)
        = false := by
      simp [marker_open, marker_done, List.isPrefixOf]
    have hbd : is_char_boundary (marker_done ++ 32 :: t) 6 = true := by
      unfold is_char_boundary
      rcases t with _ | ⟨b, t2⟩
      · simp [marker_done]
      · have := hb b t2 rfl
        simp [marker_done, this]
    unfold Item.from_str
    rw [hpre, hnpre, hbd]
    simp [marker_done]

/-- Decoding a list of encoded item lines recovers the items. -/
theorem decodeLines_map_to_string (items : List Item)
    (h : ∀ it ∈ items, utf8Start it.text = true) :
    decodeLines (items.map Item.to_string) = some items := by
  induction items with
  | nil => rfl
  | cons it its ih =>
    simp only [List.map_cons, decodeLines,
      from_str_to_string it (h it (by simp)),
      ih (fun x hx => h x (List.mem_cons_of_mem it hx))]
    rfl

/-- Claim C7 (amended): saving then loading is the identity for every
non-empty item sequence whose texts contain no newline and where no item
other than the last has a text ending in a carriage return; the defaults
are irrelevant because the file exists after the save. (The `utf8Start`
hypothesis only reflects that the texts are valid UTF-8, which every Rust
`String` is.) -/
theorem save_load_round_trip (items : List Item) (p : String)
    (defaults : List (List Nat)) (fs : FS)
    (_hne : items ≠ [])
    (hnl : ∀ it ∈ items, 10 ∉ it.text)
    (hcr : ∀ it ∈ items.dropLast, it.text.getLast? ≠ some 13)
    (hu : ∀ it ∈ items, utf8Start it.text = true) :
    read_items p defaults (write_items items p fs)
      = some (items, write_items items p fs) := by
  have hcontent : fsLookup (write_items items p fs) p
      = some (joinNl (items.map Item.to_string)) :=
    fsLookup_fsSet_self fs p _
  have hlines : lines (joinNl (items.map Item.to_string))
      = items.map Item.to_string := by
    apply lines_joinNl
    · intro l hl
      obtain ⟨it, hit, rfl⟩ := List.mem_map.mp hl
      exact to_string_not_mem_nl it (hnl it hit)
    · intro l hl
      obtain ⟨it, hit, rfl⟩ := List.mem_map.mp hl
      exact to_string_ne_nil it
    · intro l hl
      rw [← List.map_dropLast] at hl
      obtain ⟨it, hit, rfl⟩ := List.mem_map.mp hl
      exact to_string_getLast_ne_cr it (hcr it hit)
  have hdec : decodeLines (items.map Item.to_string) = some items :=
    decodeLines_map_to_string items hu
  have hex : (fsLookup (write_items items p fs) p).isSome = true := by
    rw [hcontent]
    rfl
  simp [read_items, hex, hcontent, hlines, hdec]

/-- Claim C7 (counterexample): the round trip fails for a non-empty
sequence with newline-free texts when a non-last text ends in a carriage
return. Saving the items with texts `"\r"` and `""` produces the file
bytes `"- [ ] \r\n- [ ] "`; Rust `lines()` strips the `"\r"` before the
`"\n"`, so loading returns two items with empty texts — not the saved
sequence. -/
theorem save_load_round_trip_counterexample :
    (read_items "p" []
        (write_items [⟨[13], false⟩, ⟨[], false⟩] "p" [])).map Prod.fst
        = some [⟨[], false⟩, ⟨[], false⟩]
      ∧ ([⟨[], false⟩, ⟨[], false⟩] : List Item)
        ≠ [⟨[13], false⟩, ⟨[], false⟩] := by decide

/-- Claim C7 (witness): the amended round trip evaluated on the concrete
two-item sequence with texts `"a"` (incomplete) and `"b"` (completed). -/
theorem save_load_round_trip_witness :
    read_items "w" [[120]]
        (write_items [⟨[97], false⟩, ⟨[98], true⟩] "w" [])
      = some ([⟨[97], false⟩, ⟨[98], true⟩],
          write_items [⟨[97], false⟩, ⟨[98], true⟩] "w" []) :=
  save_load_round_trip [⟨[97], false⟩, ⟨[98], true⟩] "w" [[120]] []
    (by decide) (by decide) (by decide) (by decide)
